import Mathlib

/-!
Verification of the task-graph orchestration runtime (overlap-based dependency
inference, scoped arena allocator, dependency-countdown scheduler).

Embedded directly from the sources:
 * `src/runtime/tensormap_and_ringbuffer/runtime/pto_types.h` — parameter and
   worker-type enumerations and the parameter factory helpers;
 * `src/platform/a2a3sim/aicpu/inner_aicpu.h` — the simulation timestamp
   conversion `get_sys_cnt_aicpu`;
 * `examples/.../kernels/orchestration/example_orchestration.cpp` — the
   `float_to_u64` helper and the example task-submission sequence.

The runtime core itself (`pto_runtime2.h`: tensor map, task window, arena,
scheduler) is not part of the corpus; those components are modelled from the
specification, each such definition marked `Modelled from the spec:`.
-/

namespace PTO

/-! ## Types from `pto_types.h` -/

/-- The `enum class PTOWorkerType : int32_t` from `pto_types.h`:
CUBE (matrix ops) and VECTOR (element-wise ops). -/
inductive PTOWorkerType where
  | CUBE
  | VECTOR
  deriving DecidableEq, Repr

/-- The `int32_t` enumerator value of a worker type, as written in
`pto_types.h` (`CUBE = 0`, `VECTOR = 1`). -/
def PTOWorkerType.tag : PTOWorkerType → Int
  | .CUBE => 0
  | .VECTOR => 1

/-- Constant `PTO_NUM_WORKER_TYPES` from `pto_types.h`. -/
def PTO_NUM_WORKER_TYPES : Int := 2

/-- The `enum class PTOParamType : int32_t` from `pto_types.h`. -/
inductive PTOParamType where
  | INPUT
  | OUTPUT
  | INOUT
  | SCALAR
  deriving DecidableEq, Repr

/-- The `int32_t` enumerator value of a parameter type, as written in
`pto_types.h` (`INPUT = 0`, `OUTPUT = 1`, `INOUT = 2`, `SCALAR = 3`). -/
def PTOParamType.tag : PTOParamType → Int
  | .INPUT => 0
  | .OUTPUT => 1
  | .INOUT => 2
  | .SCALAR => 3

/-- Handle type `PTOBufferHandle`, declared in `tensor_descriptor.h` (not in the
corpus); the factory helpers in `pto_types.h` use only its `addr` field, a
device address (`0` is the null address). -/
structure PTOBufferHandle where
  addr : Nat
  deriving DecidableEq, Repr

/-- Tensor descriptor reduced to its bounding byte range.
Modelled from the spec: `TensorDescriptor` and `make_tensor_bbox` live in
`tensor_descriptor.h`, which is missing from the corpus; the spec (§4.1)
reduces strided regions to bounding byte ranges carrying a version tag. -/
structure TensorDescriptor where
  addr : Nat
  size : Nat
  version : Nat
  deriving DecidableEq, Repr

/-- Modelled from the spec: builds the bounding-byte-range descriptor used by
the `pto_types.h` factory helpers. -/
def make_tensor_bbox (addr : Nat) (size : Nat) (version : Nat) : TensorDescriptor :=
  ⟨addr, size, version⟩

/-- The `struct PTOParam` from `pto_types.h`.  The C `PTOBufferHandle*` member is
an `Option` (`nullptr` is `none`); `scalar_value` is the raw `uint64_t`. -/
structure PTOParam where
  type : PTOParamType
  tensor : TensorDescriptor
  buffer : Option PTOBufferHandle
  scalar_value : Nat
  deriving DecidableEq, Repr

/-! ## Factory helpers from `pto_types.h`

The C helpers `assert` on their preconditions; an embedding of a helper with
an `assert` returns `none` exactly when the assertion fires. -/

/-- Helper `make_scalar_param` from `pto_types.h`: zero-initializes the descriptor,
sets `SCALAR`, a null buffer pointer, and the raw encoded value. -/
def make_scalar_param (value : Nat) : PTOParam :=
  { type := .SCALAR
    tensor := make_tensor_bbox 0 0 0
    buffer := none
    scalar_value := value }

/-- Helper `make_input_param` from `pto_types.h`:
`assert(buf.addr != 0)`, then INPUT with the buffer's bounding box. -/
def make_input_param (buf : PTOBufferHandle) (size : Nat) (version : Nat) :
    Option PTOParam :=
  if buf.addr = 0 then none
  else some
    { type := .INPUT
      tensor := make_tensor_bbox buf.addr size version
      buffer := some buf
      scalar_value := 0 }

/-- Helper `make_output_param` from `pto_types.h`: no assertion — a null address is
accepted (the runtime then allocates the output from the arena). -/
def make_output_param (buf : PTOBufferHandle) (size : Nat) (version : Nat) :
    PTOParam :=
  { type := .OUTPUT
    tensor := make_tensor_bbox buf.addr size version
    buffer := some buf
    scalar_value := 0 }

/-- Helper `make_inout_param` from `pto_types.h`:
`assert(buf.addr != 0)`, then INOUT with the buffer's bounding box. -/
def make_inout_param (buf : PTOBufferHandle) (size : Nat) (version : Nat) :
    Option PTOParam :=
  if buf.addr = 0 then none
  else some
    { type := .INOUT
      tensor := make_tensor_bbox buf.addr size version
      buffer := some buf
      scalar_value := 0 }

/-! ## `get_sys_cnt_aicpu` from `platform/a2a3sim/aicpu/inner_aicpu.h` -/

/-- Constant `std::nano::den`: nanoseconds per second. -/
def kNsPerSec : Nat := 1000000000

/-- Function `get_sys_cnt_aicpu` from `inner_aicpu.h` (a2a3sim) as a function of the
elapsed-nanosecond count read from the clock.  `PLATFORM_PROF_SYS_CNT_FREQ`
comes from `platform_config.h` (not in the corpus) and is a parameter here.
All operations are `uint64_t`: each multiplication and the final sum are
reduced `% 2 ^ 64`. -/
def get_sys_cnt_aicpu (freq : Nat) (elapsed_ns : Nat) : Nat :=
  let seconds := elapsed_ns / kNsPerSec
  let remaining_ns := elapsed_ns % kNsPerSec
  (seconds * freq % 2 ^ 64 + remaining_ns * freq % 2 ^ 64 / kNsPerSec) % 2 ^ 64

/-! ## `float_to_u64` from `example_orchestration.cpp` -/

/-- The anonymous C++ union `{ float f32; uint64_t u64; }` in `float_to_u64`,
modelled as its 64-bit word on the little-endian target: storing the `f32`
member overwrites the low 32 bits and leaves the high 32 bits.  A `float` is
represented by its IEEE-754 bit pattern (a `Nat < 2 ^ 32`). -/
def unionSetF32 (u : Nat) (bits : Nat) : Nat :=
  u / 2 ^ 32 * 2 ^ 32 + bits % 2 ^ 32

/-- Function `float_to_u64` from `example_orchestration.cpp`: `conv.u64 = 0;` clears
the word, then `conv.f32 = f;` stores the float's bit pattern, and the
whole `u64` member is returned. -/
def float_to_u64 (bits : Nat) : Nat :=
  unionSetF32 0 bits

/-! ## Dependency-countdown scheduler

Modelled from the spec: the task state machine of §4.4 and the ordering
guarantee of §5 (`pto_runtime2.h`, which implements the task window and
scheduler, is not in the corpus).  Tasks are identified by their submission
index; the edge list of the already-built graph is a parameter. -/

/-- Task execution states (§4.4):
`Pending → Ready → Dispatched → Running → Completed | Failed`. -/
inductive TaskState where
  | pending
  | ready
  | dispatched
  | running
  | completed
  | failed
  deriving DecidableEq, Repr

/-- Modelled from the spec (§4.4): scheduler state, giving each task its
execution state and its inbound-dependency counter. -/
structure SchedState where
  tstate : Nat → TaskState
  cnt : Nat → Nat

/-- Number of stored edges from `t` into `u`. -/
def edgeCount (edges : List (Nat × Nat)) (t u : Nat) : Nat :=
  edges.countP (fun e => decide (e = (t, u)))

/-- Number of stored edges into `b`: the initial inbound-dependency count. -/
def edgesInto (edges : List (Nat × Nat)) (b : Nat) : Nat :=
  edges.countP (fun e => decide (e.2 = b))

/-- Number of edges into `b` whose source task has not yet completed. -/
def blockedCount (edges : List (Nat × Nat)) (s : SchedState) (b : Nat) : Nat :=
  edges.countP (fun e => decide (e.2 = b ∧ s.tstate e.1 ≠ TaskState.completed))

/-- Modelled from the spec (§4.4): at submission end every task is `Pending`
and its counter is its in-degree. -/
def initSched (edges : List (Nat × Nat)) : SchedState :=
  { tstate := fun _ => TaskState.pending
    cnt := fun b => edgesInto edges b }

/-- Relabel one task's execution state. -/
def setTaskState (s : SchedState) (t : Nat) (ts : TaskState) : SchedState :=
  { s with tstate := fun u => if u = t then ts else s.tstate u }

/-- Modelled from the spec (§4.4): completion marks the task `Completed` and
decrements, once per stored outbound edge, each dependent's counter. -/
def completeTask (s : SchedState) (t : Nat) (edges : List (Nat × Nat)) : SchedState :=
  { tstate := fun u => if u = t then TaskState.completed else s.tstate u
    cnt := fun u => s.cnt u - edgeCount edges t u }

/-- Modelled from the spec (§4.4, §5): one scheduler transition.
`Pending→Ready` fires only when the counter is zero; `Completed` is entered
only from `Running` and performs the countdown on dependents. -/
inductive SchedStep (edges : List (Nat × Nat)) : SchedState → SchedState → Prop where
  | becomeReady (s : SchedState) (t : Nat)
      (hp : s.tstate t = TaskState.pending) (hz : s.cnt t = 0) :
      SchedStep edges s (setTaskState s t TaskState.ready)
  | dispatch (s : SchedState) (t : Nat) (hr : s.tstate t = TaskState.ready) :
      SchedStep edges s (setTaskState s t TaskState.dispatched)
  | startRunning (s : SchedState) (t : Nat) (hd : s.tstate t = TaskState.dispatched) :
      SchedStep edges s (setTaskState s t TaskState.running)
  | completeStep (s : SchedState) (t : Nat) (hr : s.tstate t = TaskState.running) :
      SchedStep edges s (completeTask s t edges)
  | failStep (s : SchedState) (t : Nat) (hr : s.tstate t = TaskState.running) :
      SchedStep edges s (setTaskState s t TaskState.failed)

/-- Any interleaving of scheduler transitions. -/
def SchedReach (edges : List (Nat × Nat)) : SchedState → SchedState → Prop :=
  Relation.ReflTransGen (SchedStep edges)

/-- Scheduler invariant: every counter counts the not-yet-completed
predecessors, and a task that has left `Pending` has all predecessors
completed. -/
def SchedInv (edges : List (Nat × Nat)) (s : SchedState) : Prop :=
  (∀ b, s.cnt b = blockedCount edges s b) ∧
  (∀ a b, (a, b) ∈ edges → s.tstate b ≠ TaskState.pending →
    s.tstate a = TaskState.completed)

/-! ## Dependency-edge store with idempotent insertion

Modelled from the spec (§4.2): edges are stored per ordered pair, and an
edge is inserted only "if not already an edge", so a second overlap between
the same pair does not double-count the dependent's in-degree. -/

/-- The dependency graph being built at submission time: the stored edge
list and each task's inbound-dependency count. -/
structure DepGraph where
  edges : List (Nat × Nat)
  indeg : Nat → Nat

/-- Modelled from the spec (§4.2): insert the edge `a→b` and bump `b`'s
in-degree, unless the pair is already stored. -/
def insertEdge (g : DepGraph) (a b : Nat) : DepGraph :=
  if (a, b) ∈ g.edges then g
  else
    { edges := (a, b) :: g.edges
      indeg := fun u => if u = b then g.indeg u + 1 else g.indeg u }

/-! ## A concrete execution of the one-edge graph `0 → 1` -/

/-- The one-edge dependency graph `0 → 1`. -/
def demoEdges : List (Nat × Nat) := [(0, 1)]

/-- Initial scheduler state of the demo graph. -/
def demoS0 : SchedState := initSched demoEdges

/-- Demo: task 0 became ready. -/
def demoS1 : SchedState := setTaskState demoS0 0 TaskState.ready

/-- Demo: task 0 dispatched. -/
def demoS2 : SchedState := setTaskState demoS1 0 TaskState.dispatched

/-- Demo: task 0 running. -/
def demoS3 : SchedState := setTaskState demoS2 0 TaskState.running

/-- Demo: task 0 completed; task 1's counter counted down to zero. -/
def demoS4 : SchedState := completeTask demoS3 0 demoEdges

/-- Demo: task 1 became ready. -/
def demoS5 : SchedState := setTaskState demoS4 1 TaskState.ready

/-- Demo: task 1 dispatched. -/
def demoS6 : SchedState := setTaskState demoS5 1 TaskState.dispatched

/-- Demo: task 1 running. -/
def demoS7 : SchedState := setTaskState demoS6 1 TaskState.running

/-! ## Overlap-based dependency inference (region map)

Modelled from the spec (§4.1, §4.2): the overlap checker and the region map
mapping live regions to their last writer and current readers, consulted and
updated on every task submission. -/

/-- Modelled from the spec (§4.1): two bounding byte ranges alias when their
byte ranges intersect and their version tags match (regions with different
versions never alias: stale match rejected). -/
def regionsOverlap (r1 r2 : TensorDescriptor) : Bool :=
  r1.version == r2.version && decide (r1.addr < r2.addr + r2.size) &&
    decide (r2.addr < r1.addr + r1.size)

/-- Modelled from the spec (§3, §4.2): a region-map entry: a live region,
its last writer (if any) and the reader tasks since that write. -/
structure RegionEntry where
  region : TensorDescriptor
  lastWriter : Option Nat
  readers : List Nat
  deriving DecidableEq, Repr

/-- Modelled from the spec (§4.2): the dependency-inference state: the
region map and the dependency graph built so far. -/
structure InferState where
  entries : List RegionEntry
  graph : DepGraph

/-- Modelled from the spec (§3, §4.2): add a dependency edge; self-edges are
skipped (edges only point from earlier-submitted to later-submitted tasks)
and insertion is idempotent. -/
def addDep (g : DepGraph) (a b : Nat) : DepGraph :=
  if a = b then g else insertEdge g a b

/-- Modelled from the spec (§4.2): process an Input-kind region of task `t`:
for each overlapping entry, add an edge from its last writer and register
`t` as a reader; a region with no overlapping entry gets a reader-only
entry. -/
def processRead (t : Nat) (r : TensorDescriptor) (st : InferState) : InferState :=
  let g := st.entries.foldl (fun g e =>
    if regionsOverlap e.region r then
      match e.lastWriter with
      | some w => addDep g w t
      | none => g
    else g) st.graph
  let es := st.entries.map (fun e =>
    if regionsOverlap e.region r then
      { e with readers := if t ∈ e.readers then e.readers else t :: e.readers }
    else e)
  if st.entries.any (fun e => regionsOverlap e.region r) then
    { entries := es, graph := g }
  else
    { entries := es ++ [{ region := r, lastWriter := none, readers := [t] }]
      graph := g }

/-- Modelled from the spec (§4.2): process an Output-kind region of task
`t`: add edges from the last writer and from every reader of each
overlapping entry (write-after-read safety), then make `t` the last writer
and clear the reader set. -/
def processWrite (t : Nat) (r : TensorDescriptor) (st : InferState) : InferState :=
  let g := st.entries.foldl (fun g e =>
    if regionsOverlap e.region r then
      let g1 := match e.lastWriter with
        | some w => addDep g w t
        | none => g
      e.readers.foldl (fun g2 rd => addDep g2 rd t) g1
    else g) st.graph
  let es := st.entries.map (fun e =>
    if regionsOverlap e.region r then
      { e with lastWriter := some t, readers := [] }
    else e)
  if st.entries.any (fun e => regionsOverlap e.region r) then
    { entries := es, graph := g }
  else
    { entries := es ++ [{ region := r, lastWriter := some t, readers := [] }]
      graph := g }

/-- Modelled from the spec (§4.2): scalars bypass the map entirely; INPUT
reads, OUTPUT writes, INOUT reads then writes. -/
def processParam (t : Nat) (st : InferState) (p : PTOParam) : InferState :=
  match p.type with
  | PTOParamType.INPUT => processRead t p.tensor st
  | PTOParamType.OUTPUT => processWrite t p.tensor st
  | PTOParamType.INOUT => processWrite t p.tensor (processRead t p.tensor st)
  | PTOParamType.SCALAR => st

/-- Modelled from the spec (§4.2, §4.6): dependency inference for one
submitted task over its ordered parameter list. -/
def inferTask (t : Nat) (params : List PTOParam) (st : InferState) : InferState :=
  params.foldl (processParam t) st

/-- The inference state at session begin: no live regions, no edges. -/
def emptyInfer : InferState :=
  { entries := [], graph := { edges := [], indeg := fun _ => 0 } }

/-! ## The example orchestration (`example_orchestration.cpp`)

The five submissions of `aicpu_orchestration_entry`, with `SIZE = 8`
(`BYTES = 32`): external tensors `a`, `b`, `f` at caller-supplied addresses
and intermediates `c`, `d`, `e`, `g` at consecutive arena addresses.  The
`params_t1 … params_t3` arrays carry a trailing scalar but are submitted
with `param count 3`, so only the first three parameters are seen — hence
the `.take 3`.  Scalar floats are passed through `float_to_u64` on their
IEEE-754 bit patterns (`1.0f = 0x3F800000`, `2.0f = 0x40000000`). -/

/-- The dependency graph inferred for the example submission sequence of
`example_orchestration.cpp` (`none` would mean a factory assertion fired). -/
def exampleInferred : Option DepGraph := do
  let pa ← make_input_param ⟨4096⟩ 32 0
  let pb ← make_input_param ⟨8192⟩ 32 0
  let pcOut := make_output_param ⟨65536⟩ 32 0
  let st0 := inferTask 0 [pa, pb, pcOut] emptyInfer
  let pcIn ← make_input_param ⟨65536⟩ 32 0
  let pdOut := make_output_param ⟨65568⟩ 32 0
  let st1 := inferTask 1
    ([pcIn, make_scalar_param (float_to_u64 1065353216), pdOut,
      make_scalar_param 3].take 3) st0
  let peOut := make_output_param ⟨65600⟩ 32 0
  let st2 := inferTask 2
    ([pcIn, make_scalar_param (float_to_u64 1073741824), peOut,
      make_scalar_param 3].take 3) st1
  let pdIn ← make_input_param ⟨65568⟩ 32 0
  let peIn ← make_input_param ⟨65600⟩ 32 0
  let pgOut := make_output_param ⟨65632⟩ 32 0
  let st3 := inferTask 3 ([pdIn, peIn, pgOut, make_scalar_param 3].take 3) st2
  let pgIn ← make_input_param ⟨65632⟩ 32 0
  let pfOut := make_output_param ⟨12288⟩ 32 0
  let st4 := inferTask 4 [pgIn, pcIn, pfOut] st3
  return st4.graph

/-! ## Task window

Modelled from the spec (§4.4, §7, §8): the task window is a fixed-capacity
ring buffer of submitted tasks; a submission into a full window fails with
`CapacityExceeded` and changes nothing. -/

/-- Modelled from the spec (§7): the error taxonomy of the runtime. -/
inductive PTOErrorKind where
  | ArgCountMismatch
  | CapacityExceeded
  | InvalidParameter
  | ScopeImbalance
  | TaskExecutionFailure
  deriving DecidableEq, Repr

/-- Modelled from the spec (§3, §4.4): a task-window slot: task identity and
its execution state. -/
structure TaskRec where
  id : Nat
  state : TaskState
  deriving DecidableEq, Repr

/-- Modelled from the spec (§4.4): the fixed-capacity task window holding
the in-flight tasks. -/
structure TaskWindow where
  capacity : Nat
  tasks : List TaskRec
  deriving DecidableEq, Repr

/-- Modelled from the spec (§4.4, §7): submit a task into the window.  A
full window fails the submission with `CapacityExceeded`, returning the
window unchanged; otherwise the task is appended as `Pending`. -/
def submit_task (w : TaskWindow) (i : Nat) : TaskWindow × Option PTOErrorKind :=
  if w.capacity ≤ w.tasks.length then
    (w, some PTOErrorKind.CapacityExceeded)
  else
    ({ w with tasks := w.tasks ++ [{ id := i, state := TaskState.pending }] },
     none)

/-! ## Scoped arena allocator

Modelled from the spec (§4.3): a bump allocator over a fixed-capacity
backing buffer with a stack of scope marks; `close_scope` pops the most
recent mark, resets the offset to it and invalidates every handle allocated
at or after that mark.  External buffers are never owned by the arena. -/

/-- A buffer handle as tracked by the arena: identity, arena offset, byte
size, version tag, whether it is external (caller-supplied), and whether it
is still valid. -/
structure ArenaBuffer where
  id : Nat
  off : Nat
  size : Nat
  version : Nat
  external : Bool
  live : Bool
  deriving DecidableEq, Repr

/-- Modelled from the spec (§4.3): the arena: backing capacity, current bump
offset, the stack of scope marks, the fresh-version and fresh-id counters,
and every handle ever issued. -/
structure Arena where
  capacity : Nat
  off : Nat
  marks : List Nat
  nextVersion : Nat
  nextId : Nat
  bufs : List ArenaBuffer
  deriving DecidableEq, Repr

/-- Modelled from the spec (§4.3): `open_scope` pushes the current
allocation offset as a new mark. -/
def open_scope (a : Arena) : Arena :=
  { a with marks := a.off :: a.marks }

/-- Modelled from the spec (§4.3): `allocate` bumps the offset and returns a
handle with a fresh version, erroring (arena unchanged, no handle) when the
backing buffer is exhausted. -/
def allocate (a : Arena) (sz : Nat) : Arena × Option ArenaBuffer :=
  if a.capacity < a.off + sz then (a, none)
  else
    let b : ArenaBuffer :=
      { id := a.nextId, off := a.off, size := sz, version := a.nextVersion,
        external := false, live := true }
    ({ a with
        off := a.off + sz
        nextVersion := a.nextVersion + 1
        nextId := a.nextId + 1
        bufs := a.bufs ++ [b] }, some b)

/-- Modelled from the spec (§4.3, §6): register a caller-supplied buffer;
it is never owned by the arena. -/
def register_external (a : Arena) (sz : Nat) : Arena × ArenaBuffer :=
  let b : ArenaBuffer :=
    { id := a.nextId, off := 0, size := sz, version := 0,
      external := true, live := true }
  ({ a with nextId := a.nextId + 1, bufs := a.bufs ++ [b] }, b)

/-- Modelled from the spec (§4.3): `close_scope` pops the most recent mark,
resets the offset to it and invalidates every arena-owned handle allocated
at or after that mark; closing with no open scope is a `ScopeImbalance`. -/
def close_scope (a : Arena) : Arena × Option PTOErrorKind :=
  match a.marks with
  | [] => (a, some PTOErrorKind.ScopeImbalance)
  | m :: rest =>
    ({ a with
        off := m
        marks := rest
        bufs := a.bufs.map (fun b =>
          if b.external = false ∧ m ≤ b.off then { b with live := false } else b) },
     none)

/-- Build-phase arena operations. -/
inductive ArenaOp where
  | openS
  | closeS
  | alloc (sz : Nat)
  | extBuf (sz : Nat)
  deriving DecidableEq, Repr

/-- Run one build-phase operation (discarding the returned handle/error). -/
def runOp (a : Arena) : ArenaOp → Arena
  | ArenaOp.openS => open_scope a
  | ArenaOp.closeS => (close_scope a).1
  | ArenaOp.alloc sz => (allocate a sz).1
  | ArenaOp.extBuf sz => (register_external a sz).1

/-- Run a sequence of build-phase operations. -/
def runOps (ops : List ArenaOp) (a : Arena) : Arena :=
  ops.foldl runOp a

/-- Scope-depth tracking relative to a base depth: `some d` is the depth
after the operations; `none` means some close popped below the base. -/
def depthAfter : List ArenaOp → Nat → Option Nat
  | [], d => some d
  | ArenaOp.openS :: ops, d => depthAfter ops (d + 1)
  | ArenaOp.closeS :: _, 0 => none
  | ArenaOp.closeS :: ops, d + 1 => depthAfter ops d
  | ArenaOp.alloc _ :: ops, d => depthAfter ops d
  | ArenaOp.extBuf _ :: ops, d => depthAfter ops d

/-- Mid-scope invariant, relative to the state in which a scope was opened
at mark `m` over mark stack `base`, with pre-existing buffers `bufs0` and
id watermark `nid0`: the offset never drops below `m`, the mark stack is
`d` inner marks (all at least `m`) over `m :: base`, pre-existing buffers
persist unchanged, ids below the watermark are pre-existing, arena-owned
buffers allocated since the open sit at or above `m`, and scope-registered
external buffers stay live. -/
def MidScope (m : Nat) (base : List Nat) (bufs0 : List ArenaBuffer)
    (nid0 : Nat) (d : Nat) (s : Arena) : Prop :=
  m ≤ s.off ∧
  (∃ p, s.marks = p ++ m :: base ∧ p.length = d ∧ ∀ x ∈ p, m ≤ x) ∧
  (∀ b ∈ bufs0, b ∈ s.bufs) ∧
  (∀ b ∈ s.bufs, b.id < nid0 → b ∈ bufs0) ∧
  (∀ b ∈ s.bufs, nid0 ≤ b.id → b.external = false → m ≤ b.off) ∧
  (∀ b ∈ s.bufs, nid0 ≤ b.id → b.external = true → b.live = true) ∧
  nid0 ≤ s.nextId

/-- A concrete arena before a scope: one live intermediate buffer filling
offsets 0–4 and one external buffer, with the bump offset at 4. -/
def demoArenaPre : Arena :=
  { capacity := 64, off := 4, marks := [], nextVersion := 1, nextId := 2,
    bufs := [⟨0, 0, 4, 0, false, true⟩, ⟨1, 0, 16, 0, true, true⟩] }

/-! ## Reclaim/reallocate cycles and version monotonicity -/

/-- One reclaim/reallocate cycle: open a scope, allocate `sz` bytes at the
current offset, close the scope (reclaiming the allocation). -/
def reuseCycle (sz : Nat) (a : Arena) : Arena :=
  runOps [ArenaOp.openS, ArenaOp.alloc sz, ArenaOp.closeS] a

/-- The handle produced by the allocation of cycle `n`: the result of
allocating `sz` bytes after `n` complete reclaim/reallocate cycles. -/
def cycleHandle (sz : Nat) (a : Arena) (n : Nat) : Option ArenaBuffer :=
  (allocate (open_scope ((reuseCycle sz)^[n] a)) sz).2

/-- A fresh empty arena for the reuse-cycle witness. -/
def demoArenaFresh : Arena :=
  { capacity := 64, off := 0, marks := [], nextVersion := 0, nextId := 0,
    bufs := [] }

/-! ## Lemmas and theorems -/

/-! ## Arithmetic helper for the timestamp split -/

/-- Splitting `n` into seconds and remainder before scaling loses nothing:
`(n / d) * f + ((n % d) * f) / d = n * f / d`. -/
lemma split_div_exact (f n d : Nat) (hd : 0 < d) :
    n / d * f + n % d * f / d = n * f / d := by
  conv_rhs => rw [← Nat.div_add_mod n d]
  rw [Nat.add_mul, Nat.mul_assoc, Nat.mul_add_div hd]

/-- Splitting a count: if, pointwise, `p` holds exactly when `q` or `r` does
and never both, then counting `p` splits into counting `q` plus counting `r`. -/
lemma countP_split {α : Type} (p q r : α → Bool) (l : List α)
    (h : ∀ e ∈ l, p e = (q e || r e) ∧ (q e && r e) = false) :
    l.countP p = l.countP q + l.countP r := by
  induction l with
  | nil => simp
  | cons x xs ih =>
    have hx := h x (List.mem_cons_self x xs)
    have hxs : ∀ e ∈ xs, p e = (q e || r e) ∧ (q e && r e) = false :=
      fun e he => h e (List.mem_cons_of_mem x he)
    simp only [List.countP_cons, ih hxs]
    cases hq : q x <;> cases hr : r x <;>
      simp [hq, hr] at hx ⊢ <;> simp [hx] <;> omega

/-- Relabelling a task between two non-`Completed` states does not change
any blocked count. -/
lemma blockedCount_relabel (edges : List (Nat × Nat)) (s : SchedState)
    (t : Nat) (ts : TaskState) (hold : s.tstate t ≠ TaskState.completed)
    (hnew : ts ≠ TaskState.completed) (b : Nat) :
    blockedCount edges (setTaskState s t ts) b = blockedCount edges s b := by
  unfold blockedCount
  congr 1
  funext e
  simp only [setTaskState]
  by_cases he : e.1 = t
  · simp [he, hold, hnew]
  · simp [he]

/-- The invariant is preserved by relabelling a task between states that are
neither `Pending` nor `Completed`. -/
lemma schedInv_relabel (edges : List (Nat × Nat)) (s : SchedState) (t : Nat)
    (ts : TaskState) (h1 : s.tstate t ≠ TaskState.pending)
    (h2 : s.tstate t ≠ TaskState.completed) (_h3 : ts ≠ TaskState.pending)
    (h4 : ts ≠ TaskState.completed) (hinv : SchedInv edges s) :
    SchedInv edges (setTaskState s t ts) := by
  obtain ⟨hc, hd⟩ := hinv
  constructor
  · intro b
    rw [blockedCount_relabel edges s t ts h2 h4 b]
    exact hc b
  · intro a b hmem hb
    by_cases hbt : b = t
    · have ha : s.tstate a = TaskState.completed := hd a b hmem (hbt ▸ h1)
      have hat : a ≠ t := fun h => h2 (h ▸ ha)
      simpa [setTaskState, hat] using ha
    · have hb0 : s.tstate b ≠ TaskState.pending := by
        simpa [setTaskState, hbt] using hb
      have ha := hd a b hmem hb0
      have hat : a ≠ t := fun h => h2 (h ▸ ha)
      simpa [setTaskState, hat] using ha

/-- The invariant is preserved by every scheduler transition. -/
lemma schedInv_step (edges : List (Nat × Nat)) {s sB : SchedState}
    (hstep : SchedStep edges s sB) (hinv : SchedInv edges s) :
    SchedInv edges sB := by
  obtain ⟨hc, hd⟩ := hinv
  cases hstep with
  | becomeReady t hp hz =>
    have hall : ∀ a, (a, t) ∈ edges → s.tstate a = TaskState.completed := by
      rw [hc t] at hz
      intro a hmem
      have h2 := List.countP_eq_zero.mp hz (a, t) hmem
      simp at h2
      exact h2
    constructor
    · intro b
      rw [blockedCount_relabel edges s t TaskState.ready (by simp [hp]) (by simp) b]
      exact hc b
    · intro a b hmem hb
      by_cases hbt : b = t
      · have ha := hall a (hbt ▸ hmem)
        have hat : a ≠ t := fun h => by rw [h, hp] at ha; exact absurd ha (by simp)
        simpa [setTaskState, hat] using ha
      · have hb0 : s.tstate b ≠ TaskState.pending := by
          simpa [setTaskState, hbt] using hb
        have ha := hd a b hmem hb0
        have hat : a ≠ t := fun h => by rw [h, hp] at ha; exact absurd ha (by simp)
        simpa [setTaskState, hat] using ha
  | dispatch t hr =>
    exact schedInv_relabel edges s t TaskState.dispatched
      (by simp [hr]) (by simp [hr]) (by simp) (by simp) ⟨hc, hd⟩
  | startRunning t hdi =>
    exact schedInv_relabel edges s t TaskState.running
      (by simp [hdi]) (by simp [hdi]) (by simp) (by simp) ⟨hc, hd⟩
  | failStep t hr =>
    exact schedInv_relabel edges s t TaskState.failed
      (by simp [hr]) (by simp [hr]) (by simp) (by simp) ⟨hc, hd⟩
  | completeStep t hr =>
    have hsplit : ∀ u, blockedCount edges s u =
        blockedCount edges (completeTask s t edges) u + edgeCount edges t u := by
      intro u
      apply countP_split
      intro e _
      by_cases he : e.1 = t
      · constructor
        · by_cases he2 : e.2 = u
          · simp [completeTask, he, he2, hr, Prod.ext_iff]
          · simp [completeTask, he, he2, Prod.ext_iff]
        · simp [completeTask, he, Prod.ext_iff]
      · have hne : e ≠ (t, u) := fun h => he (by rw [h])
        simp [completeTask, he, hne]
    constructor
    · intro b
      have : (completeTask s t edges).cnt b = s.cnt b - edgeCount edges t b := rfl
      rw [this, hc b, hsplit b, Nat.add_sub_cancel]
    · intro a b hmem hb
      by_cases hbt : b = t
      · have ha := hd a t (hbt ▸ hmem) (by simp [hr])
        have hat : a ≠ t := fun h => by rw [h, hr] at ha; exact absurd ha (by simp)
        simpa [completeTask, hat] using ha
      · have hb0 : s.tstate b ≠ TaskState.pending := by
          simpa [completeTask, hbt] using hb
        have ha := hd a b hmem hb0
        by_cases hat : a = t
        · simp [completeTask, hat]
        · simpa [completeTask, hat] using ha

/-- The initial scheduler state satisfies the invariant. -/
lemma schedInv_init (edges : List (Nat × Nat)) : SchedInv edges (initSched edges) := by
  constructor
  · intro b
    show edgesInto edges b = blockedCount edges (initSched edges) b
    unfold edgesInto blockedCount
    have hfun : (fun (e : Nat × Nat) => decide (e.2 = b)) =
        (fun (e : Nat × Nat) =>
          decide (e.2 = b ∧ (initSched edges).tstate e.1 ≠ TaskState.completed)) := by
      funext e
      simp [initSched]
    rw [hfun]
  · intro a b _ hb
    exact absurd rfl hb

/-- Every state reachable from the initial one satisfies the invariant. -/
lemma schedInv_reach (edges : List (Nat × Nat)) (s : SchedState)
    (h : SchedReach edges (initSched edges) s) : SchedInv edges s := by
  induction h with
  | refl => exact schedInv_init edges
  | tail _ hstep ih => exact schedInv_step edges hstep ih

/-- No scheduler transition ever increases a dependency counter. -/
lemma schedStep_cnt_le (edges : List (Nat × Nat)) {s sB : SchedState}
    (h : SchedStep edges s sB) (b : Nat) : sB.cnt b ≤ s.cnt b := by
  cases h with
  | becomeReady t hp hz => exact Nat.le_refl _
  | dispatch t hr => exact Nat.le_refl _
  | startRunning t hdi => exact Nat.le_refl _
  | completeStep t hr => exact Nat.sub_le _ _
  | failStep t hr => exact Nat.le_refl _

/-- A dependency counter that has reached zero stays zero: the ready
transition is idempotent over the whole execution. -/
lemma schedReach_cnt_zero (edges : List (Nat × Nat)) {s sB : SchedState}
    (h : SchedReach edges s sB) (b : Nat) (h0 : s.cnt b = 0) : sB.cnt b = 0 := by
  induction h with
  | refl => exact h0
  | tail _ hstep ih =>
    have := schedStep_cnt_le edges hstep b
    omega

/-- Inserting the same ordered pair twice is the same as inserting it once:
the edge list and every in-degree are unchanged by the second insert. -/
lemma insertEdge_idem (g : DepGraph) (a b : Nat) :
    insertEdge (insertEdge g a b) a b = insertEdge g a b := by
  unfold insertEdge
  by_cases h : (a, b) ∈ g.edges
  · simp [h]
  · simp [h, List.mem_cons]

/-- The demo execution up to task 0's completion is reachable. -/
lemma demoReach4 : SchedReach demoEdges demoS0 demoS4 :=
  Relation.ReflTransGen.head (SchedStep.becomeReady demoS0 0 (by decide) (by decide))
    (Relation.ReflTransGen.head (SchedStep.dispatch demoS1 0 (by decide))
      (Relation.ReflTransGen.head (SchedStep.startRunning demoS2 0 (by decide))
        (Relation.ReflTransGen.single (SchedStep.completeStep demoS3 0 (by decide)))))

/-- The demo execution up to task 1 running is reachable. -/
lemma demoReach7 : SchedReach demoEdges demoS0 demoS7 :=
  Relation.ReflTransGen.trans demoReach4
    (Relation.ReflTransGen.head (SchedStep.becomeReady demoS4 1 (by decide) (by decide))
      (Relation.ReflTransGen.head (SchedStep.dispatch demoS5 1 (by decide))
        (Relation.ReflTransGen.single (SchedStep.startRunning demoS6 1 (by decide)))))

/-- C1: in every scheduler execution, a task with an inbound edge never
transitions to `Running` before the edge's source task has reached
`Completed`; and for two tasks with no path between them (here the
edge-free two-task graph) executions exist in which either one runs while
the other is still pending, i.e. they may run in any relative order. -/
theorem C1_no_running_before_predecessor_completed :
    (∀ (edges : List (Nat × Nat)) (s : SchedState) (a b : Nat),
        SchedReach edges (initSched edges) s → (a, b) ∈ edges →
        s.tstate b = TaskState.running → s.tstate a = TaskState.completed) ∧
    (∃ s, SchedReach [] (initSched []) s ∧
        s.tstate 0 = TaskState.running ∧ s.tstate 1 = TaskState.pending) ∧
    (∃ s, SchedReach [] (initSched []) s ∧
        s.tstate 1 = TaskState.running ∧ s.tstate 0 = TaskState.pending) := by
  refine ⟨?_, ?_, ?_⟩
  · intro edges s a b hreach hmem hrun
    exact (schedInv_reach edges s hreach).2 a b hmem (by rw [hrun]; decide)
  · refine ⟨setTaskState (setTaskState (setTaskState (initSched []) 0 TaskState.ready)
        0 TaskState.dispatched) 0 TaskState.running, ?_, by decide, by decide⟩
    exact Relation.ReflTransGen.head (SchedStep.becomeReady _ 0 (by decide) (by decide))
      (Relation.ReflTransGen.head (SchedStep.dispatch _ 0 (by decide))
        (Relation.ReflTransGen.single (SchedStep.startRunning _ 0 (by decide))))
  · refine ⟨setTaskState (setTaskState (setTaskState (initSched []) 1 TaskState.ready)
        1 TaskState.dispatched) 1 TaskState.running, ?_, by decide, by decide⟩
    exact Relation.ReflTransGen.head (SchedStep.becomeReady _ 1 (by decide) (by decide))
      (Relation.ReflTransGen.head (SchedStep.dispatch _ 1 (by decide))
        (Relation.ReflTransGen.single (SchedStep.startRunning _ 1 (by decide))))

/-- C1 witness: in the concrete execution of the graph `0 → 1` that has
task 1 running, task 0 is completed. -/
theorem C1_no_running_before_predecessor_completed_witness :
    demoS7.tstate 0 = TaskState.completed :=
  C1_no_running_before_predecessor_completed.1 demoEdges demoS7 0 1 demoReach7
    (by decide) (by decide)

/-- C3: inserting a dependency edge is idempotent per ordered pair (a second
insert of the same pair changes neither the edge list nor any in-degree);
counters (naturals, hence non-negative) never increase under scheduler
transitions; and a counter that has reached zero stays zero, so it reaches
zero at most once over the whole execution. -/
theorem C3_edge_insert_idempotent_counter_zero_once :
    (∀ (g : DepGraph) (a b : Nat),
        insertEdge (insertEdge g a b) a b = insertEdge g a b) ∧
    (∀ (edges : List (Nat × Nat)) (s sB : SchedState),
        SchedStep edges s sB → ∀ b, sB.cnt b ≤ s.cnt b) ∧
    (∀ (edges : List (Nat × Nat)) (s sB : SchedState),
        SchedReach edges s sB → ∀ b, s.cnt b = 0 → sB.cnt b = 0) :=
  ⟨fun g a b => insertEdge_idem g a b,
   fun edges _ _ hstep b => schedStep_cnt_le edges hstep b,
   fun edges _ _ hreach b h0 => schedReach_cnt_zero edges hreach b h0⟩

/-- C3 witness: along the concrete execution of the graph `0 → 1`, task 0's
counter starts at zero and is still zero after task 0 completes. -/
theorem C3_edge_insert_idempotent_counter_zero_once_witness :
    demoS4.cnt 0 = 0 :=
  C3_edge_insert_idempotent_counter_zero_once.2.2 demoEdges demoS0 demoS4
    demoReach4 0 (by decide)

/-- C2: the dependency-inference engine, run on the example orchestration's
five submissions (t0 in the outer scope, t1…t4 in the nested scope),
produces exactly the edge set {t0→t1, t0→t2, t1→t3, t2→t3, t0→t4, t3→t4},
with no duplicate edges and in-degrees 0,1,1,2,2. -/
theorem C2_example_orchestration_edge_set :
    (exampleInferred.map fun g =>
      decide (g.edges.Perm [(0, 1), (0, 2), (1, 3), (2, 3), (0, 4), (3, 4)])) =
        some true ∧
    (exampleInferred.map fun g => decide g.edges.Nodup) = some true ∧
    (exampleInferred.map fun g =>
      (g.indeg 0, g.indeg 1, g.indeg 2, g.indeg 3, g.indeg 4)) =
        some (0, 1, 1, 2, 2) := by
  refine ⟨by decide, by decide, by decide⟩

/-- C4: submitting into a full task window fails with `CapacityExceeded` and
leaves every previously submitted task's record unchanged, while a non-full
window accepts the submission. -/
theorem C4_window_full_capacity_exceeded :
    ∀ (w : TaskWindow) (i : Nat),
      (w.tasks.length = w.capacity →
        (submit_task w i).2 = some PTOErrorKind.CapacityExceeded ∧
        (submit_task w i).1 = w) ∧
      (w.tasks.length < w.capacity →
        (submit_task w i).2 = none ∧
        (submit_task w i).1.tasks =
          w.tasks ++ [{ id := i, state := TaskState.pending }]) := by
  intro w i
  constructor
  · intro hfull
    have hle : w.capacity ≤ w.tasks.length := Nat.le_of_eq hfull.symm
    simp [submit_task, hle]
  · intro hlt
    have hnle : ¬w.capacity ≤ w.tasks.length := Nat.not_le.mpr hlt
    simp [submit_task, hnle]

/-- C4 witness: a concrete window of capacity 2 holding two tasks rejects a
third submission with `CapacityExceeded` and is unchanged. -/
theorem C4_window_full_capacity_exceeded_witness :
    (submit_task
        { capacity := 2
          tasks := [{ id := 0, state := TaskState.completed },
                    { id := 1, state := TaskState.running }] } 2).2 =
      some PTOErrorKind.CapacityExceeded ∧
    (submit_task
        { capacity := 2
          tasks := [{ id := 0, state := TaskState.completed },
                    { id := 1, state := TaskState.running }] } 2).1 =
      { capacity := 2
        tasks := [{ id := 0, state := TaskState.completed },
                  { id := 1, state := TaskState.running }] } :=
  (C4_window_full_capacity_exceeded
    { capacity := 2
      tasks := [{ id := 0, state := TaskState.completed },
                { id := 1, state := TaskState.running }] } 2).1 (by decide)

/-- A dead buffer is untouched by re-invalidation. -/
lemma kill_dead (b : ArenaBuffer) (h : b.live = false) :
    { b with live := false } = b := by
  cases b
  simp_all

/-- The value of a pre-existing buffer is fixed by `close_scope`'s
invalidation map, provided live arena-owned pre-existing buffers sit below
the popped mark. -/
lemma close_map_fixes (m x : Nat) (hx : m ≤ x) (b : ArenaBuffer)
    (hOld : b.live = true → b.external = false → b.off < m) :
    (if b.external = false ∧ x ≤ b.off then { b with live := false } else b) = b := by
  by_cases hext : b.external = false
  · by_cases hlive : b.live = true
    · have hoff : b.off < m := hOld hlive hext
      have : ¬x ≤ b.off := by omega
      simp [hext, this]
    · by_cases hcond : b.external = false ∧ x ≤ b.off
      · rw [if_pos hcond]
        simp at hlive
        exact kill_dead b hlive
      · exact if_neg hcond
  · simp [hext]

/-- The invalidation map of `close_scope` never changes a buffer's `id`,
`off`, `size`, `version` or `external` fields. -/
lemma close_map_fields (x : Nat) (b : ArenaBuffer) :
    ((if b.external = false ∧ x ≤ b.off then { b with live := false } else b).id = b.id) ∧
    ((if b.external = false ∧ x ≤ b.off then { b with live := false } else b).off = b.off) ∧
    ((if b.external = false ∧ x ≤ b.off then { b with live := false } else b).external
      = b.external) := by
  by_cases h : b.external = false ∧ x ≤ b.off <;> simp [h]

/-- One build-phase operation preserves the mid-scope invariant, provided
the operation does not pop below the open mark. -/
lemma midScope_step (m : Nat) (base : List Nat) (bufs0 : List ArenaBuffer)
    (nid0 : Nat)
    (hOld : ∀ b ∈ bufs0, b.live = true → b.external = false → b.off < m)
    (op : ArenaOp) (d dB : Nat) (s : Arena)
    (hdep : depthAfter [op] d = some dB)
    (hmid : MidScope m base bufs0 nid0 d s) :
    MidScope m base bufs0 nid0 dB (runOp s op) := by
  obtain ⟨hoff, ⟨p, hmarks, hplen, hpge⟩, hpre, hid, hnew, hext, hnid⟩ := hmid
  cases op with
  | openS =>
    have hdB : d + 1 = dB := by
      simpa [depthAfter] using hdep
    refine ⟨hoff, ⟨s.off :: p, ?_, ?_, ?_⟩, hpre, hid, hnew, hext, hnid⟩
    · show (s.off :: s.marks) = (s.off :: p) ++ m :: base
      simp [hmarks]
    · simp only [List.length_cons, hplen]
      omega
    · intro x hx
      rcases List.mem_cons.mp hx with h | h
      · exact h ▸ hoff
      · exact hpge x h
  | closeS =>
    cases d with
    | zero => simp [depthAfter] at hdep
    | succ d1 =>
      have hdB : d1 = dB := by simpa [depthAfter] using hdep
      cases p with
      | nil => simp at hplen
      | cons x pr =>
        have hxm : m ≤ x := hpge x (List.mem_cons_self x pr)
        have hprge : ∀ y ∈ pr, m ≤ y := fun y hy => hpge y (List.mem_cons_of_mem x hy)
        have hm2 : s.marks = x :: (pr ++ m :: base) := by simpa using hmarks
        have hrun : runOp s ArenaOp.closeS =
            { s with
              off := x
              marks := pr ++ m :: base
              bufs := s.bufs.map (fun b =>
                if b.external = false ∧ x ≤ b.off then { b with live := false }
                else b) } := by
          simp [runOp, close_scope, hm2]
        rw [hrun]
        refine ⟨by simpa using hxm, ⟨pr, by simp, by simp at hplen; omega, hprge⟩,
          ?_, ?_, ?_, ?_, hnid⟩
        · intro b hb
          have hb2 := hpre b hb
          have hfix := close_map_fixes m x hxm b (hOld b hb)
          show b ∈ s.bufs.map _
          rw [← hfix]
          exact List.mem_map_of_mem _ hb2
        · intro b hb hlt
          obtain ⟨b0, hb0, hfb⟩ := List.mem_map.mp hb
          have hfields := close_map_fields x b0
          have hb0id : b0.id = b.id := by rw [← hfb]; exact (hfields.1).symm
          have hb0mem : b0 ∈ bufs0 := hid b0 hb0 (by omega)
          have hfix := close_map_fixes m x hxm b0 (hOld b0 hb0mem)
          rw [← hfb, hfix]
          exact hb0mem
        · intro b hb hge hextF
          obtain ⟨b0, hb0, hfb⟩ := List.mem_map.mp hb
          have hfields := close_map_fields x b0
          have h1 : b0.id = b.id := by rw [← hfb]; exact (hfields.1).symm
          have h2 : b0.off = b.off := by rw [← hfb]; exact (hfields.2.1).symm
          have h3 : b0.external = b.external := by rw [← hfb]; exact (hfields.2.2).symm
          have := hnew b0 hb0 (by omega) (by rw [h3, hextF])
          omega
        · intro b hb hge hextT
          obtain ⟨b0, hb0, hfb⟩ := List.mem_map.mp hb
          have hfields := close_map_fields x b0
          have h1 : b0.id = b.id := by rw [← hfb]; exact (hfields.1).symm
          have h3 : b0.external = b.external := by rw [← hfb]; exact (hfields.2.2).symm
          have hb0ext : b0.external = true := by rw [h3, hextT]
          have hb0live : b0.live = true := hext b0 hb0 (by omega) hb0ext
          have : (if b0.external = false ∧ x ≤ b0.off then { b0 with live := false }
              else b0) = b0 := by
            simp [hb0ext]
          rw [← hfb, this]
          exact hb0live
  | alloc sz =>
    have hdB : d = dB := by simpa [depthAfter] using hdep
    by_cases hcap : s.capacity < s.off + sz
    · have hrun : runOp s (ArenaOp.alloc sz) = s := by
        simp [runOp, allocate, hcap]
      rw [hrun]
      exact ⟨hoff, ⟨p, hmarks, by omega, hpge⟩, hpre, hid, hnew, hext, hnid⟩
    · have hrun : runOp s (ArenaOp.alloc sz) =
          { s with
            off := s.off + sz
            nextVersion := s.nextVersion + 1
            nextId := s.nextId + 1
            bufs := s.bufs ++ [⟨s.nextId, s.off, sz, s.nextVersion, false, true⟩] } := by
        simp [runOp, allocate, hcap]
      rw [hrun]
      refine ⟨by simp; omega, ⟨p, by simpa using hmarks, by simp [hplen]; omega, hpge⟩,
        ?_, ?_, ?_, ?_, by simp; omega⟩
      · intro b hb
        exact List.mem_append_left _ (hpre b hb)
      · intro b hb hlt
        rcases List.mem_append.mp hb with h | h
        · exact hid b h hlt
        · simp at h
          rw [h] at hlt
          simp at hlt
          omega
      · intro b hb hge hextF
        rcases List.mem_append.mp hb with h | h
        · exact hnew b h hge hextF
        · simp at h
          rw [h]
          simpa using hoff
      · intro b hb hge hextT
        rcases List.mem_append.mp hb with h | h
        · exact hext b h hge hextT
        · simp at h
          rw [h] at hextT
          simp at hextT
  | extBuf sz =>
    have hdB : d = dB := by simpa [depthAfter] using hdep
    have hrun : runOp s (ArenaOp.extBuf sz) =
        { s with
          nextId := s.nextId + 1
          bufs := s.bufs ++ [⟨s.nextId, 0, sz, 0, true, true⟩] } := by
      simp [runOp, register_external]
    rw [hrun]
    refine ⟨hoff, ⟨p, by simpa using hmarks, by simp [hplen]; omega, hpge⟩, ?_, ?_, ?_, ?_,
      by simp; omega⟩
    · intro b hb
      exact List.mem_append_left _ (hpre b hb)
    · intro b hb hlt
      rcases List.mem_append.mp hb with h | h
      · exact hid b h hlt
      · simp at h
        rw [h] at hlt
        simp at hlt
        omega
    · intro b hb hge hextF
      rcases List.mem_append.mp hb with h | h
      · exact hnew b h hge hextF
      · simp at h
        rw [h] at hextF
        simp at hextF
    · intro b hb hge hextT
      rcases List.mem_append.mp hb with h | h
      · exact hext b h hge hextT
      · simp at h
        simp [h]

/-- A balanced-prefix operation sequence preserves the mid-scope
invariant. -/
lemma midScope_runOps (m : Nat) (base : List Nat) (bufs0 : List ArenaBuffer)
    (nid0 : Nat)
    (hOld : ∀ b ∈ bufs0, b.live = true → b.external = false → b.off < m)
    (ops : List ArenaOp) :
    ∀ (d dB : Nat) (s : Arena), depthAfter ops d = some dB →
      MidScope m base bufs0 nid0 d s →
      MidScope m base bufs0 nid0 dB (runOps ops s) := by
  induction ops with
  | nil =>
    intro d dB s hdep hmid
    have : d = dB := by simpa [depthAfter] using hdep
    simpa [runOps] using this ▸ hmid
  | cons op ops ih =>
    intro d dB s hdep hmid
    have hsplit : ∃ d1, depthAfter [op] d = some d1 ∧ depthAfter ops d1 = some dB := by
      cases op with
      | openS => exact ⟨d + 1, by simp [depthAfter], by simpa [depthAfter] using hdep⟩
      | closeS =>
        cases d with
        | zero => simp [depthAfter] at hdep
        | succ d1 =>
          exact ⟨d1, by simp [depthAfter], by simpa [depthAfter] using hdep⟩
      | alloc sz => exact ⟨d, by simp [depthAfter], by simpa [depthAfter] using hdep⟩
      | extBuf sz => exact ⟨d, by simp [depthAfter], by simpa [depthAfter] using hdep⟩
    obtain ⟨d1, h1, h2⟩ := hsplit
    have hmid1 := midScope_step m base bufs0 nid0 hOld op d d1 s h1 hmid
    have hfold : runOps (op :: ops) s = runOps ops (runOp s op) := by
      simp [runOps]
    rw [hfold]
    exact ih d1 dB (runOp s op) h2 hmid1

/-- C5: closing the innermost scope invalidates exactly the arena-owned
buffers allocated at or after its open mark: for any arena whose issued
handles sit below the bump offset and below the id watermark, and any
balanced operation sequence run inside the scope, every pre-existing buffer
(enclosing-scope or external) survives the close with all its fields — in
particular its validity — unchanged, every arena-owned buffer allocated
inside the scope is invalid after the close, every external buffer
registered inside the scope is still valid, and the offset and mark stack
return to their pre-open values. -/
theorem C5_close_scope_exact_frame :
    ∀ (s0 : Arena) (inner : List ArenaOp),
      (∀ b ∈ s0.bufs, b.live = true → b.external = false →
          b.off + b.size ≤ s0.off ∧ 0 < b.size) →
      (∀ b ∈ s0.bufs, b.id < s0.nextId) →
      depthAfter inner 0 = some 0 →
      (∀ b ∈ s0.bufs,
          b ∈ (runOps (ArenaOp.openS :: (inner ++ [ArenaOp.closeS])) s0).bufs) ∧
      (∀ b ∈ (runOps (ArenaOp.openS :: (inner ++ [ArenaOp.closeS])) s0).bufs,
          s0.nextId ≤ b.id → b.external = false → b.live = false) ∧
      (∀ b ∈ (runOps (ArenaOp.openS :: (inner ++ [ArenaOp.closeS])) s0).bufs,
          s0.nextId ≤ b.id → b.external = true → b.live = true) ∧
      (runOps (ArenaOp.openS :: (inner ++ [ArenaOp.closeS])) s0).off = s0.off ∧
      (runOps (ArenaOp.openS :: (inner ++ [ArenaOp.closeS])) s0).marks = s0.marks := by
  intro s0 inner hInv hIds hbal
  have hOld : ∀ b ∈ s0.bufs, b.live = true → b.external = false → b.off < s0.off := by
    intro b hb h1 h2
    have := hInv b hb h1 h2
    omega
  have hmid1 : MidScope s0.off s0.marks s0.bufs s0.nextId 0 (open_scope s0) := by
    refine ⟨Nat.le_refl _, ⟨[], by simp [open_scope], rfl, by simp⟩,
      fun b hb => hb, fun b hb _ => hb, ?_, ?_, Nat.le_refl _⟩
    · intro b hb hge _
      have := hIds b hb
      omega
    · intro b hb hge _
      have := hIds b hb
      omega
  have hmid2 := midScope_runOps s0.off s0.marks s0.bufs s0.nextId hOld inner
    0 0 (open_scope s0) hbal hmid1
  obtain ⟨hoff2, ⟨p, hmarks2, hplen2, _⟩, hpre2, hid2, hnew2, hext2, hnid2⟩ := hmid2
  have hp : p = [] := List.length_eq_zero.mp hplen2
  rw [hp] at hmarks2
  simp only [List.nil_append] at hmarks2
  have hdecomp : runOps (ArenaOp.openS :: (inner ++ [ArenaOp.closeS])) s0 =
      (close_scope (runOps inner (open_scope s0))).1 := by
    show List.foldl runOp s0 (ArenaOp.openS :: (inner ++ [ArenaOp.closeS])) = _
    rw [List.foldl_cons, List.foldl_append]
    rfl
  have hclose : (close_scope (runOps inner (open_scope s0))).1 =
      { runOps inner (open_scope s0) with
        off := s0.off
        marks := s0.marks
        bufs := (runOps inner (open_scope s0)).bufs.map (fun b =>
          if b.external = false ∧ s0.off ≤ b.off then { b with live := false }
          else b) } := by
    simp [close_scope, hmarks2]
  rw [hdecomp, hclose]
  refine ⟨?_, ?_, ?_, rfl, rfl⟩
  · intro b hb
    have hb2 := hpre2 b hb
    have hfix := close_map_fixes s0.off s0.off (Nat.le_refl _) b (hOld b hb)
    show b ∈ (runOps inner (open_scope s0)).bufs.map _
    rw [← hfix]
    exact List.mem_map_of_mem _ hb2
  · intro b hb hge hextF
    obtain ⟨b0, hb0, hfb⟩ := List.mem_map.mp hb
    have hfields := close_map_fields s0.off b0
    have h1 : b0.id = b.id := by rw [← hfb]; exact hfields.1.symm
    have h3 : b0.external = b.external := by rw [← hfb]; exact hfields.2.2.symm
    have hoffb : s0.off ≤ b0.off := hnew2 b0 hb0 (by omega) (by rw [h3, hextF])
    have hkill : (if b0.external = false ∧ s0.off ≤ b0.off then
        { b0 with live := false } else b0) = { b0 with live := false } :=
      if_pos ⟨by rw [h3, hextF], hoffb⟩
    rw [← hfb, hkill]
  · intro b hb hge hextT
    obtain ⟨b0, hb0, hfb⟩ := List.mem_map.mp hb
    have hfields := close_map_fields s0.off b0
    have h1 : b0.id = b.id := by rw [← hfb]; exact hfields.1.symm
    have h3 : b0.external = b.external := by rw [← hfb]; exact hfields.2.2.symm
    have hb0ext : b0.external = true := by rw [h3, hextT]
    have hb0live : b0.live = true := hext2 b0 hb0 (by omega) hb0ext
    have hkeep : (if b0.external = false ∧ s0.off ≤ b0.off then
        { b0 with live := false } else b0) = b0 := by
      simp [hb0ext]
    rw [← hfb, hkeep]
    exact hb0live

/-- C5 witness: in a concrete scope that allocates one 8-byte buffer, the
pre-existing live buffer survives the close unchanged. -/
theorem C5_close_scope_exact_frame_witness :
    (⟨0, 0, 4, 0, false, true⟩ : ArenaBuffer) ∈
      (runOps (ArenaOp.openS :: ([ArenaOp.alloc 8] ++ [ArenaOp.closeS]))
        demoArenaPre).bufs :=
  (C5_close_scope_exact_frame demoArenaPre [ArenaOp.alloc 8]
    (by decide) (by decide) (by decide)).1 ⟨0, 0, 4, 0, false, true⟩ (by decide)

/-- After `n` reclaim/reallocate cycles the offset and capacity are back to
their initial values and the fresh-version counter has advanced by exactly
`n`. -/
lemma cycle_state (sz : Nat) (a : Arena) (h : a.off + sz ≤ a.capacity) :
    ∀ n : Nat, ((reuseCycle sz)^[n] a).off = a.off ∧
      ((reuseCycle sz)^[n] a).capacity = a.capacity ∧
      ((reuseCycle sz)^[n] a).nextVersion = a.nextVersion + n := by
  intro n
  induction n with
  | zero => simp
  | succ k ih =>
    obtain ⟨h1, h2, h3⟩ := ih
    rw [Function.iterate_succ_apply']
    have hcap : ¬((reuseCycle sz)^[k] a).capacity <
        ((reuseCycle sz)^[k] a).off + sz := by
      rw [h1, h2]
      omega
    have hcap2 : ¬a.capacity < a.off + sz := by omega
    refine ⟨?_, ?_, ?_⟩ <;>
      simp [reuseCycle, runOps, runOp, open_scope, allocate, close_scope,
        hcap, hcap2, h1, h2, h3] <;>
      omega

/-- C6: for every number `n` of reclaim/reallocate cycles, the allocation of
cycle `n` and the allocation of cycle `n + 1` both land at the same arena
offset and the later handle carries a strictly greater version tag. -/
theorem C6_reuse_version_strictly_increases :
    ∀ (sz : Nat) (a : Arena), a.off + sz ≤ a.capacity → ∀ n : Nat,
      ∃ b bB : ArenaBuffer,
        cycleHandle sz a n = some b ∧ cycleHandle sz a (n + 1) = some bB ∧
        b.off = a.off ∧ bB.off = a.off ∧ b.version < bB.version := by
  intro sz a h n
  have hsucc : ∀ s : Arena, s.off = a.off → s.capacity = a.capacity →
      (allocate (open_scope s) sz).2 =
        some ⟨s.nextId, a.off, sz, s.nextVersion, false, true⟩ := by
    intro s h1 h2
    have hcap : ¬s.capacity < a.off + sz := by
      rw [h2]
      omega
    simp [allocate, open_scope, h1, hcap]
  obtain ⟨h1, h2, h3⟩ := cycle_state sz a h n
  obtain ⟨g1, g2, g3⟩ := cycle_state sz a h (n + 1)
  refine ⟨_, _, hsucc _ h1 h2, hsucc _ g1 g2, rfl, rfl, ?_⟩
  show ((reuseCycle sz)^[n] a).nextVersion < ((reuseCycle sz)^[n + 1] a).nextVersion
  rw [h3, g3]
  omega

/-- C6 witness: on a concrete empty arena, the handles of cycles 2 and 3
land at the same offset with strictly increasing versions. -/
theorem C6_reuse_version_strictly_increases_witness :
    ∃ b bB : ArenaBuffer,
      cycleHandle 8 demoArenaFresh 2 = some b ∧
      cycleHandle 8 demoArenaFresh 3 = some bB ∧
      b.off = demoArenaFresh.off ∧ bB.off = demoArenaFresh.off ∧
      b.version < bB.version :=
  C6_reuse_version_strictly_increases 8 demoArenaFresh (by decide) 2

/-- C7: the factory helpers of `pto_types.h` enforce the factory contracts:
`make_input_param` and `make_inout_param` succeed exactly when the buffer
address is non-null (the C `assert` fires on a null address);
`make_output_param` accepts a null address and still builds an OUTPUT
parameter; `make_scalar_param` attaches no buffer and carries exactly the
raw encoded value. -/
theorem C7_factory_contracts :
    (∀ (buf : PTOBufferHandle) (sz ver : Nat),
        (make_input_param buf sz ver).isSome ↔ buf.addr ≠ 0) ∧
    (∀ (buf : PTOBufferHandle) (sz ver : Nat),
        (make_inout_param buf sz ver).isSome ↔ buf.addr ≠ 0) ∧
    (∀ sz ver : Nat,
        make_output_param ⟨0⟩ sz ver =
          { type := PTOParamType.OUTPUT
            tensor := make_tensor_bbox 0 sz ver
            buffer := some ⟨0⟩
            scalar_value := 0 }) ∧
    (∀ v : Nat,
        (make_scalar_param v).buffer = none ∧
        (make_scalar_param v).scalar_value = v ∧
        (make_scalar_param v).type = PTOParamType.SCALAR) := by
  refine ⟨?_, ?_, ?_, ?_⟩
  · intro buf sz ver
    unfold make_input_param
    by_cases h : buf.addr = 0 <;> simp [h]
  · intro buf sz ver
    unfold make_inout_param
    by_cases h : buf.addr = 0 <;> simp [h]
  · intro sz ver
    rfl
  · intro v
    exact ⟨rfl, rfl, rfl⟩

/-- C7 witness: a concrete non-null buffer is accepted by
`make_input_param`. -/
theorem C7_factory_contracts_witness :
    (make_input_param ⟨4096⟩ 32 0).isSome :=
  (C7_factory_contracts.1 ⟨4096⟩ 32 0).mpr (by decide)

/-- C8: the public numeric encodings are stable and equal to the spec's
values: `INPUT = 0`, `OUTPUT = 1`, `INOUT = 2`, `SCALAR = 3`; the
matrix-style worker class `CUBE` has tag 0 and the vector-style worker
class `VECTOR` has tag 1. -/
theorem C8_numeric_tags_stable :
    PTOParamType.tag PTOParamType.INPUT = 0 ∧
    PTOParamType.tag PTOParamType.OUTPUT = 1 ∧
    PTOParamType.tag PTOParamType.INOUT = 2 ∧
    PTOParamType.tag PTOParamType.SCALAR = 3 ∧
    PTOWorkerType.tag PTOWorkerType.CUBE = 0 ∧
    PTOWorkerType.tag PTOWorkerType.VECTOR = 1 := by
  refine ⟨rfl, rfl, rfl, rfl, rfl, rfl⟩

/-- C9: whenever the two `uint64_t` intermediates of `get_sys_cnt_aicpu` do
not overflow (the remainder product fits in 64 bits and the exact result
fits in 64 bits), the seconds/remainder split computes exactly
`⌊elapsed_ns * freq / 10^9⌋`: the split loses no precision relative to the
exact rational conversion. -/
theorem C9_get_sys_cnt_split_exact :
    ∀ (freq n : Nat),
      n % kNsPerSec * freq < 2 ^ 64 →
      n * freq / kNsPerSec < 2 ^ 64 →
      get_sys_cnt_aicpu freq n = n * freq / kNsPerSec := by
  intro freq n h1 h2
  have hd : 0 < kNsPerSec := by decide
  have key := split_div_exact freq n kNsPerSec hd
  have hsec : n / kNsPerSec * freq ≤ n * freq / kNsPerSec := by
    rw [← key]
    exact Nat.le_add_right _ _
  have hsec2 : n / kNsPerSec * freq < 2 ^ 64 := Nat.lt_of_le_of_lt hsec h2
  show (n / kNsPerSec * freq % 2 ^ 64 +
      n % kNsPerSec * freq % 2 ^ 64 / kNsPerSec) % 2 ^ 64 = n * freq / kNsPerSec
  rw [Nat.mod_eq_of_lt hsec2, Nat.mod_eq_of_lt h1, key, Nat.mod_eq_of_lt h2]

/-- C9 witness: at a 50 MHz tick frequency and 2.500000007 seconds of
elapsed nanoseconds, the split conversion equals the exact floor. -/
theorem C9_get_sys_cnt_split_exact_witness :
    get_sys_cnt_aicpu 50000000 2500000007 =
      2500000007 * 50000000 / kNsPerSec :=
  C9_get_sys_cnt_split_exact 50000000 2500000007 (by decide) (by decide)

/-- C10: for every 32-bit IEEE-754 bit pattern, `float_to_u64` returns a
64-bit value whose upper 32 bits are zero and whose lower 32 bits are
exactly that bit pattern (the union's 64-bit member is cleared before the
float is stored into the low half). -/
theorem C10_float_to_u64_zero_extends :
    ∀ bits : Nat, bits < 2 ^ 32 →
      float_to_u64 bits % 2 ^ 32 = bits ∧
      float_to_u64 bits / 2 ^ 32 = 0 ∧
      float_to_u64 bits = bits := by
  intro bits h
  have hval : float_to_u64 bits = bits := by
    show 0 / 2 ^ 32 * 2 ^ 32 + bits % 2 ^ 32 = bits
    rw [Nat.mod_eq_of_lt h]
    simp
  refine ⟨?_, ?_, hval⟩
  · rw [hval]
    exact Nat.mod_eq_of_lt h
  · rw [hval]
    exact Nat.div_eq_of_lt h

/-- C10 witness: the bit pattern of `1.0f` (`0x3F800000`) is returned
zero-extended to 64 bits. -/
theorem C10_float_to_u64_zero_extends_witness :
    float_to_u64 1065353216 % 2 ^ 32 = 1065353216 ∧
    float_to_u64 1065353216 / 2 ^ 32 = 0 ∧
    float_to_u64 1065353216 = 1065353216 :=
  C10_float_to_u64_zero_extends 1065353216 (by decide)

end PTO
